import Mathlib

/-!
Verification of the synthetic activity generator (autoimport.py) of the
ArcaneSupremacy_Lab repository.

The generator fetches a snapshot of valid foreign keys at startup
(fetch_valid_foreign_keys), then loops: each iteration runs one activity
batch (insert_studentvle_data) and one assessment batch
(insert_studentassessment_data) against the studentvle and
studentassessment tables, accumulating totals, until interrupted.

Modelling conventions:
- Randomness is an explicit stream of raw draws.  Python's
  random.randint(lo, hi) becomes randint lo hi r = lo + r % (hi - lo + 1);
  random.choice(l) becomes choice l r = l.get? (r % l.length), whose none
  result models the IndexError that random.choice raises on an empty list.
- A table is a list of row structures; SELECT COUNT(*) over the composite
  key becomes List.countP, UPDATE over the key becomes List.map guarded on
  the key, INSERT becomes appending the row.
- A score round(random.uniform(30.0, 95.0), 1) is modelled in tenths of a
  point: an integer drawn from 300..950 (being a whole number of tenths is
  exactly what rounding to one decimal produces).
- A database error raised while processing record i of a batch is injected
  through an optional fault index; the none result of a batch runner models
  the exception reaching the except-branch, whose rollback the top level
  model renders by returning the untouched table with a zero row count.
-/

/-- The valid-key snapshot held in memory for the life of the loop,
as returned by fetch_valid_foreign_keys. -/
structure ValidKeys where
  students : List Int
  modules : List (String × String)
  sites : List Int
  assessments : List Int
deriving DecidableEq

/-- Outcome of the external database during startup: whether the
connection succeeds, and for each of the four snapshot queries either
its result rows or none for a raised error. -/
structure FetchOutcome where
  connOk : Bool
  studentsQ : Option (List Int)
  modulesQ : Option (List (String × String))
  sitesQ : Option (List Int)
  assessmentsQ : Option (List Int)
deriving DecidableEq

/-- fetch_valid_foreign_keys: returns none when the connection fails or
any of the four queries raises, otherwise the snapshot dictionary. -/
def fetch_valid_foreign_keys (o : FetchOutcome) : Option ValidKeys :=
  if o.connOk then
    match o.studentsQ, o.modulesQ, o.sitesQ, o.assessmentsQ with
    | some st, some mo, some si, some asmt =>
        some ⟨st, mo, si, asmt⟩
    | _, _, _, _ => none
  else none

/-- Python random.randint lo hi (both ends inclusive), driven by a raw
draw r. -/
def randint (lo hi r : Nat) : Nat :=
  lo + r % (hi - lo + 1)

/-- Python random.choice, driven by a raw draw r; none models the
IndexError raised on an empty sequence. -/
def choice {α : Type} (l : List α) (r : Nat) : Option α :=
  l.get? (r % l.length)

/-- A row of the studentvle table (also the sampled activity record:
the record inserted has exactly these columns). -/
structure VleRow where
  code_module : String
  code_presentation : String
  id_site : Int
  id_student : Int
  date : Nat
  sum_click : Nat
deriving DecidableEq

/-- The composite key of studentvle used by the existence check, the
UPDATE and the uniqueness invariant. -/
structure VleKey where
  id_student : Int
  id_site : Int
  code_module : String
  code_presentation : String
  date : Nat
deriving DecidableEq

def VleRow.key (row : VleRow) : VleKey :=
  ⟨row.id_student, row.id_site, row.code_module, row.code_presentation, row.date⟩

/-- A row of the studentassessment table (also the sampled record).
score is in tenths of a point. -/
structure AssessRow where
  id_student : Int
  id_assessment : Int
  date_submitted : Nat
  is_banked : Nat
  score : Nat
deriving DecidableEq

/-- The composite key of studentassessment. -/
structure AssessKey where
  id_student : Int
  id_assessment : Int
deriving DecidableEq

def AssessRow.key (row : AssessRow) : AssessKey :=
  ⟨row.id_student, row.id_assessment⟩

/-- Raw random draws consumed by one activity record:
student choice, module choice, site choice, date randint, click randint. -/
structure VleDraw where
  rStudent : Nat
  rModule : Nat
  rSite : Nat
  rDate : Nat
  rClick : Nat
deriving DecidableEq

/-- Raw random draws consumed by one assessment record. -/
structure AssessDraw where
  rStudent : Nat
  rAssessment : Nat
  rDate : Nat
  rBanked : Nat
  rScore : Nat
deriving DecidableEq

/-- The literal list random.choice draws the is_banked flag from:
[0, 0, 0, 1]. -/
def bankedChoices : List Nat := [0, 0, 0, 1]

/-- Sampling of one activity record (lines 103-110 of autoimport.py):
choose a student, a (module, presentation) pair and a site from the
snapshot, a date in 0..100 and a click increment in 1..50. -/
def sampleVle (vk : ValidKeys) (d : VleDraw) : Option VleRow := do
  let s ← choice vk.students d.rStudent
  let m ← choice vk.modules d.rModule
  let site ← choice vk.sites d.rSite
  pure { code_module := m.1
         code_presentation := m.2
         id_site := site
         id_student := s
         date := randint 0 100 d.rDate
         sum_click := randint 1 50 d.rClick }

/-- Sampling of one assessment record (lines 166-172 of autoimport.py):
choose a student and an assessment from the snapshot, a submission date
in 10..100, a banked flag from [0,0,0,1] and a score in 30.0..95.0
(modelled in tenths: 300..950). -/
def sampleAssessment (vk : ValidKeys) (d : AssessDraw) : Option AssessRow := do
  let s ← choice vk.students d.rStudent
  let a ← choice vk.assessments d.rAssessment
  let b ← choice bankedChoices d.rBanked
  pure { id_student := s
         id_assessment := a
         date_submitted := randint 10 100 d.rDate
         is_banked := b
         score := randint 300 950 d.rScore }

/-- One activity record applied to the studentvle table
(lines 112-136): SELECT COUNT(*) on the composite key, then either
UPDATE sum_click = sum_click + increment on every matching row, or
INSERT the new row. -/
def applyVleRecord (table : List VleRow) (r : VleRow) : List VleRow :=
  if 0 < table.countP (fun row => row.key == r.key) then
    table.map (fun row =>
      if row.key == r.key then
        { row with sum_click := row.sum_click + r.sum_click }
      else row)
  else
    table ++ [r]

/-- One assessment record applied to the studentassessment table
(lines 174-197): SELECT COUNT(*) on the key, then either UPDATE score
and date_submitted on every matching row, or INSERT the new row. -/
def applyAssessRecord (table : List AssessRow) (r : AssessRow) : List AssessRow :=
  if 0 < table.countP (fun row => row.key == r.key) then
    table.map (fun row =>
      if row.key == r.key then
        { row with score := r.score, date_submitted := r.date_submitted }
      else row)
  else
    table ++ [r]

/-- The body of the for-loop of insert_studentvle_data, run over the
remaining draws: i is the index of the current record, acc the
records_inserted counter.  A fault at index i models a database error
raised while processing that record; none means the exception reaches
the except-branch (sampling errors arise before any query, hence the
sample is taken first). -/
def runVleBatch (vk : ValidKeys) (fault : Option Nat) :
    List VleDraw → Nat → List VleRow → Nat → Option (List VleRow × Nat)
  | [], _, table, acc => some (table, acc)
  | d :: ds, i, table, acc =>
    match sampleVle vk d with
    | none => none
    | some r =>
      if fault = some i then none
      else runVleBatch vk fault ds (i + 1) (applyVleRecord table r) (acc + 1)

/-- The body of the for-loop of insert_studentassessment_data: ins and
upd are the records_inserted and records_updated counters, of which the
function returns the sum. -/
def runAssessBatch (vk : ValidKeys) (fault : Option Nat) :
    List AssessDraw → Nat → List AssessRow → Nat → Nat →
      Option (List AssessRow × Nat)
  | [], _, table, ins, upd => some (table, ins + upd)
  | d :: ds, i, table, ins, upd =>
    match sampleAssessment vk d with
    | none => none
    | some r =>
      if fault = some i then none
      else if 0 < table.countP (fun row => row.key == r.key) then
        runAssessBatch vk fault ds (i + 1) (applyAssessRecord table r) ins (upd + 1)
      else
        runAssessBatch vk fault ds (i + 1) (applyAssessRecord table r) (ins + 1) upd

/-- insert_studentvle_data: on success the batch commits (new table and
row count); on any error the transaction is rolled back and 0 is
returned (lines 143-146). -/
def insert_studentvle_data (vk : ValidKeys) (fault : Option Nat)
    (draws : List VleDraw) (table : List VleRow) : List VleRow × Nat :=
  match runVleBatch vk fault draws 0 table 0 with
  | some res => res
  | none => (table, 0)

/-- insert_studentassessment_data: on success the batch commits and
returns records_inserted + records_updated; on any error the
transaction is rolled back and 0 is returned (lines 203-206). -/
def insert_studentassessment_data (vk : ValidKeys) (fault : Option Nat)
    (draws : List AssessDraw) (table : List AssessRow) : List AssessRow × Nat :=
  match runAssessBatch vk fault draws 0 table 0 0 with
  | some res => res
  | none => (table, 0)

/-- The external inputs of one loop iteration: the random draws of the
two batches and the injected database faults, if any. -/
structure IterInput where
  vleFault : Option Nat
  vleDraws : List VleDraw
  assessFault : Option Nat
  assessDraws : List AssessDraw
deriving DecidableEq

/-- The state carried by the while-loop of main: the two tables and the
counters total_vle_records, total_assessment_records, iteration. -/
structure LoopState where
  studentvle : List VleRow
  studentassessment : List AssessRow
  total_vle_records : Nat
  total_assessment_records : Nat
  iteration : Nat
deriving DecidableEq

/-- One iteration of the while-loop of main (lines 238-254): run the
activity batch, then the assessment batch, add both results to the
running totals and bump the iteration counter. -/
def runIteration (vk : ValidKeys) (st : LoopState) (iv : IterInput) : LoopState :=
  let vres := insert_studentvle_data vk iv.vleFault iv.vleDraws st.studentvle
  let ares := insert_studentassessment_data vk iv.assessFault iv.assessDraws
    st.studentassessment
  { studentvle := vres.1
    studentassessment := ares.1
    total_vle_records := st.total_vle_records + vres.2
    total_assessment_records := st.total_assessment_records + ares.2
    iteration := st.iteration + 1 }

/-- The while-loop of main run until the interrupt: the list of
iteration inputs is finite because KeyboardInterrupt arrives at the
iteration boundary after that many iterations. -/
def runLoop (vk : ValidKeys) (st : LoopState) : List IterInput → LoopState
  | [] => st
  | iv :: rest => runLoop vk (runIteration vk st iv) rest

/-- The loop state before the first iteration: the pre-existing tables
and all counters at zero. -/
def initState (t1 : List VleRow) (t2 : List AssessRow) : LoopState :=
  ⟨t1, t2, 0, 0, 0⟩

/-- main (lines 210-262; named mainRun because Lean reserves main for
entry points): fetch the snapshot; if that returns none, exit before
the loop (lines 221-225); otherwise run the loop on the snapshot.
none models the early return with no batch ever attempted. -/
def mainRun (o : FetchOutcome) (t1 : List VleRow) (t2 : List AssessRow)
    (inps : List IterInput) : Option LoopState :=
  match fetch_valid_foreign_keys o with
  | none => none
  | some vk => some (runLoop vk (initState t1 t2) inps)

/-- The per-iteration pair of batch results (vle rows, assessment rows)
reported along a run of the loop. -/
def loopResults (vk : ValidKeys) (st : LoopState) : List IterInput → List (Nat × Nat)
  | [] => []
  | iv :: rest =>
    ((insert_studentvle_data vk iv.vleFault iv.vleDraws st.studentvle).2,
     (insert_studentassessment_data vk iv.assessFault iv.assessDraws
        st.studentassessment).2)
      :: loopResults vk (runIteration vk st iv) rest

/-- All activity records of a batch as sampled, or none if any sampling
step raises. -/
def sampleAllVle (vk : ValidKeys) : List VleDraw → Option (List VleRow)
  | [] => some []
  | d :: ds =>
    match sampleVle vk d with
    | none => none
    | some r => (sampleAllVle vk ds).map (fun rs => r :: rs)

/-- All assessment records of a batch as sampled, or none if any
sampling step raises. -/
def sampleAllAssess (vk : ValidKeys) : List AssessDraw → Option (List AssessRow)
  | [] => some []
  | d :: ds =>
    match sampleAssessment vk d with
    | none => none
    | some r => (sampleAllAssess vk ds).map (fun rs => r :: rs)

/-- The tables have pairwise distinct composite keys. -/
def uniqueVleKeys (t : List VleRow) : Prop :=
  t.Pairwise (fun a b => a.key ≠ b.key)

def uniqueAssessKeys (t : List AssessRow) : Prop :=
  t.Pairwise (fun a b => a.key ≠ b.key)

instance (t : List VleRow) : Decidable (uniqueVleKeys t) :=
  inferInstanceAs (Decidable (t.Pairwise _))

instance (t : List AssessRow) : Decidable (uniqueAssessKeys t) :=
  inferInstanceAs (Decidable (t.Pairwise _))

/-- The click count stored for a composite key, none if no row has the
key. -/
def getClicks (t : List VleRow) (k : VleKey) : Option Nat :=
  (t.find? (fun row => row.key == k)).map (fun row => row.sum_click)

/-- The (score, date_submitted) pair stored for a key. -/
def getScoreDate (t : List AssessRow) (k : AssessKey) : Option (Nat × Nat) :=
  (t.find? (fun row => row.key == k)).map (fun row => (row.score, row.date_submitted))

/-- The is_banked flag stored for a key. -/
def getBanked (t : List AssessRow) (k : AssessKey) : Option Nat :=
  (t.find? (fun row => row.key == k)).map (fun row => row.is_banked)

/-- Sum of the click increments a batch samples for one composite key. -/
def totalIncr (k : VleKey) (recs : List VleRow) : Nat :=
  ((recs.filter (fun r => r.key == k)).map (fun r => r.sum_click)).sum

/-- The foreign keys of an activity row all come from the snapshot. -/
def vleFKsValid (vk : ValidKeys) (row : VleRow) : Prop :=
  row.id_student ∈ vk.students ∧
  (row.code_module, row.code_presentation) ∈ vk.modules ∧
  row.id_site ∈ vk.sites

/-- The foreign keys of an assessment row all come from the snapshot. -/
def assessFKsValid (vk : ValidKeys) (row : AssessRow) : Prop :=
  row.id_student ∈ vk.students ∧ row.id_assessment ∈ vk.assessments

instance (vk : ValidKeys) (row : VleRow) : Decidable (vleFKsValid vk row) :=
  inferInstanceAs (Decidable (_ ∧ _ ∧ _))

instance (vk : ValidKeys) (row : AssessRow) : Decidable (assessFKsValid vk row) :=
  inferInstanceAs (Decidable (_ ∧ _))

/-- Effect of a list of update passes on one existing submission row:
each pass replaces score and date_submitted with the sampled values and
touches nothing else (the SET clause of lines 185-189 names only those
two columns). -/
def applyUpdates (row : AssessRow) : List AssessRow → AssessRow
  | [] => row
  | r :: rs =>
    applyUpdates { row with score := r.score, date_submitted := r.date_submitted } rs

/-- A concrete snapshot, the one of the testable-property scenario of
the spec: students 11 and 12, one course offering, site 501,
assessment 1. -/
def vkDemo : ValidKeys := ⟨[11, 12], [("AAA", "2013J")], [501], [1]⟩

/-- A snapshot whose fetch succeeded but whose categories are all
empty. -/
def vkEmpty : ValidKeys := ⟨[], [], [], []⟩

theorem choice_mem {α : Type} {l : List α} {r : Nat} {x : α}
    (h : choice l r = some x) : x ∈ l := by
  unfold choice at h
  exact List.get?_mem h

theorem choice_nil {α : Type} (r : Nat) : choice ([] : List α) r = none := rfl

theorem le_randint (lo hi r : Nat) : lo ≤ randint lo hi r :=
  Nat.le_add_right lo _

theorem randint_le {lo hi r : Nat} (h : lo ≤ hi) : randint lo hi r ≤ hi := by
  unfold randint
  have hm : r % (hi - lo + 1) < hi - lo + 1 := Nat.mod_lt r (by omega)
  omega

/-- Characterisation of a successful activity sample. -/
theorem sampleVle_eq_some {vk : ValidKeys} {d : VleDraw} {r : VleRow}
    (h : sampleVle vk d = some r) :
    ∃ s m site, choice vk.students d.rStudent = some s ∧
      choice vk.modules d.rModule = some m ∧
      choice vk.sites d.rSite = some site ∧
      r = ⟨m.1, m.2, site, s, randint 0 100 d.rDate, randint 1 50 d.rClick⟩ := by
  unfold sampleVle at h
  cases h1 : choice vk.students d.rStudent with
  | none => rw [h1] at h; simp at h
  | some s =>
    rw [h1] at h
    cases h2 : choice vk.modules d.rModule with
    | none => rw [h2] at h; simp at h
    | some m =>
      rw [h2] at h
      cases h3 : choice vk.sites d.rSite with
      | none => rw [h3] at h; simp at h
      | some site =>
        rw [h3] at h
        simp at h
        exact ⟨s, m, site, rfl, rfl, rfl, h.symm⟩

/-- Characterisation of a successful assessment sample. -/
theorem sampleAssessment_eq_some {vk : ValidKeys} {d : AssessDraw} {r : AssessRow}
    (h : sampleAssessment vk d = some r) :
    ∃ s a b, choice vk.students d.rStudent = some s ∧
      choice vk.assessments d.rAssessment = some a ∧
      choice bankedChoices d.rBanked = some b ∧
      r = ⟨s, a, randint 10 100 d.rDate, b, randint 300 950 d.rScore⟩ := by
  unfold sampleAssessment at h
  cases h1 : choice vk.students d.rStudent with
  | none => rw [h1] at h; simp at h
  | some s =>
    rw [h1] at h
    cases h2 : choice vk.assessments d.rAssessment with
    | none => rw [h2] at h; simp at h
    | some a =>
      rw [h2] at h
      cases h3 : choice bankedChoices d.rBanked with
      | none => rw [h3] at h; simp at h
      | some b =>
        rw [h3] at h
        simp at h
        exact ⟨s, a, b, rfl, rfl, rfl, h.symm⟩

/-- A successful activity sample only uses snapshot foreign keys. -/
theorem sampleVle_valid {vk : ValidKeys} {d : VleDraw} {r : VleRow}
    (h : sampleVle vk d = some r) : vleFKsValid vk r := by
  obtain ⟨s, m, site, h1, h2, h3, rfl⟩ := sampleVle_eq_some h
  refine ⟨choice_mem h1, ?_, choice_mem h3⟩
  simpa using choice_mem h2

/-- A successful assessment sample only uses snapshot foreign keys. -/
theorem sampleAssessment_valid {vk : ValidKeys} {d : AssessDraw} {r : AssessRow}
    (h : sampleAssessment vk d = some r) : assessFKsValid vk r :=
  let ⟨_, _, _, h1, h2, _, he⟩ := sampleAssessment_eq_some h
  he ▸ ⟨choice_mem h1, choice_mem h2⟩

/-- A sample from an empty student list always raises. -/
theorem sampleVle_none_of_no_students {vk : ValidKeys} (hs : vk.students = [])
    (d : VleDraw) : sampleVle vk d = none := by
  unfold sampleVle
  rw [hs]
  rfl

theorem sampleAssessment_none_of_no_students {vk : ValidKeys}
    (hs : vk.students = []) (d : AssessDraw) : sampleAssessment vk d = none := by
  unfold sampleAssessment
  rw [hs]
  rfl

/-- find? over a map that does not change the key field. -/
theorem find?_map_of_key_eq {α β : Type} [BEq β] {f : α → α} {key : α → β}
    (hf : ∀ x, key (f x) = key x) (t : List α) (k : β) :
    (t.map f).find? (fun row => key row == k) =
      (t.find? (fun row => key row == k)).map f := by
  have hpf : ((fun row => key row == k) ∘ f) = (fun row => key row == k) := by
    funext x
    simp [Function.comp, hf x]
  rw [List.find?_map, hpf]

/-- find? is stable under appending when it already succeeds. -/
theorem find?_append_left {α : Type} {p : α → Bool} :
    ∀ {t : List α} {x : α}, t.find? p = some x →
      ∀ l : List α, (t ++ l).find? p = some x := by
  intro t
  induction t with
  | nil => intro x h _; simp [List.find?] at h
  | cons a t ih =>
    intro x h l
    cases ha : p a with
    | true =>
      rw [List.find?_cons, ha] at h
      rw [List.cons_append, List.find?_cons, ha]
      exact h
    | false =>
      rw [List.find?_cons, ha] at h
      rw [List.cons_append, List.find?_cons, ha]
      exact ih h l

/-- Effect of one activity record on the row stored for a key that is
already present: a click increment when the record hits the key,
no change otherwise. -/
theorem find?_applyVleRecord {table : List VleRow} {k : VleKey} {row : VleRow}
    (h : table.find? (fun x => x.key == k) = some row) (r : VleRow) :
    (applyVleRecord table r).find? (fun x => x.key == k) =
      some (if r.key = k then { row with sum_click := row.sum_click + r.sum_click }
            else row) := by
  have hrowk : row.key = k := by
    have := List.find?_some h
    simpa using this
  unfold applyVleRecord
  by_cases hex : 0 < table.countP (fun x => x.key == r.key)
  · rw [if_pos hex]
    have hf : ∀ x : VleRow,
        (if x.key == r.key then { x with sum_click := x.sum_click + r.sum_click }
         else x).key = x.key := by
      intro x
      by_cases hx : (x.key == r.key) = true
      · rw [if_pos hx]
        rfl
      · rw [if_neg hx]
    rw [find?_map_of_key_eq hf table k, h]
    by_cases hrk : r.key = k
    · simp [hrowk, hrk]
    · have hkr : ¬ (k = r.key) := fun e => hrk e.symm
      simp [hrowk, hkr, hrk]
  · rw [if_neg hex]
    have hmem := List.mem_of_find?_eq_some h
    have hrk : ¬ (r.key = k) := by
      intro e
      apply hex
      rw [List.countP_pos_iff]
      exact ⟨row, hmem, by simp [hrowk, e]⟩
    rw [find?_append_left h]
    simp [hrk]

/-- Effect of one assessment record on the row stored for a key that is
already present: score and date_submitted are overwritten when the
record hits the key, nothing changes otherwise. -/
theorem find?_applyAssessRecord {table : List AssessRow} {k : AssessKey} {row : AssessRow}
    (h : table.find? (fun x => x.key == k) = some row) (r : AssessRow) :
    (applyAssessRecord table r).find? (fun x => x.key == k) =
      some (if r.key = k then
              { row with score := r.score, date_submitted := r.date_submitted }
            else row) := by
  have hrowk : row.key = k := by
    have := List.find?_some h
    simpa using this
  unfold applyAssessRecord
  by_cases hex : 0 < table.countP (fun x => x.key == r.key)
  · rw [if_pos hex]
    have hf : ∀ x : AssessRow,
        (if x.key == r.key then
           { x with score := r.score, date_submitted := r.date_submitted }
         else x).key = x.key := by
      intro x
      by_cases hx : (x.key == r.key) = true
      · rw [if_pos hx]
        rfl
      · rw [if_neg hx]
    rw [find?_map_of_key_eq hf table k, h]
    by_cases hrk : r.key = k
    · simp [hrowk, hrk]
    · have hkr : ¬ (k = r.key) := fun e => hrk e.symm
      simp [hrowk, hkr, hrk]
  · rw [if_neg hex]
    have hmem := List.mem_of_find?_eq_some h
    have hrk : ¬ (r.key = k) := by
      intro e
      apply hex
      rw [List.countP_pos_iff]
      exact ⟨row, hmem, by simp [hrowk, e]⟩
    rw [find?_append_left h]
    simp [hrk]

theorem totalIncr_nil (k : VleKey) : totalIncr k [] = 0 := rfl

theorem totalIncr_cons (k : VleKey) (r : VleRow) (rs : List VleRow) :
    totalIncr k (r :: rs) =
      (if r.key = k then r.sum_click else 0) + totalIncr k rs := by
  unfold totalIncr
  by_cases h : r.key = k
  · simp [List.filter_cons, h]
  · simp [List.filter_cons, h]

/-- Accumulation over a whole committed batch: a key present before the
batch ends with its clicks increased by the per-key sampled total. -/
theorem find?_foldl_applyVleRecord {k : VleKey} (recs : List VleRow) :
    ∀ {table : List VleRow} {row : VleRow},
      table.find? (fun x => x.key == k) = some row →
      (recs.foldl applyVleRecord table).find? (fun x => x.key == k) =
        some { row with sum_click := row.sum_click + totalIncr k recs } := by
  induction recs with
  | nil =>
    intro table row h
    simpa [totalIncr] using h
  | cons r rs ih =>
    intro table row h
    rw [List.foldl_cons, totalIncr_cons, ih (find?_applyVleRecord h r)]
    by_cases hrk : r.key = k
    · simp [hrk, Nat.add_assoc]
    · simp [hrk]

/-- Overwriting over a whole committed batch: a key present before the
batch ends with the row rewritten by the per-key sequence of updates. -/
theorem find?_foldl_applyAssessRecord {k : AssessKey} (recs : List AssessRow) :
    ∀ {table : List AssessRow} {row : AssessRow},
      table.find? (fun x => x.key == k) = some row →
      (recs.foldl applyAssessRecord table).find? (fun x => x.key == k) =
        some (applyUpdates row (recs.filter (fun r => r.key == k))) := by
  induction recs with
  | nil =>
    intro table row h
    simpa [applyUpdates] using h
  | cons r rs ih =>
    intro table row h
    rw [List.foldl_cons, ih (find?_applyAssessRecord h r)]
    by_cases hrk : r.key = k
    · simp [List.filter_cons, hrk, applyUpdates]
    · simp [List.filter_cons, hrk]

/-- The update passes never touch is_banked. -/
theorem applyUpdates_is_banked :
    ∀ (l : List AssessRow) (row : AssessRow),
      (applyUpdates row l).is_banked = row.is_banked := by
  intro l
  induction l with
  | nil => intro row; rfl
  | cons r rs ih =>
    intro row
    rw [applyUpdates, ih]

/-- After a sequence of update passes the stored score and day are the
last pass's values. -/
theorem applyUpdates_getLast :
    ∀ (l : List AssessRow) (row last : AssessRow), l.getLast? = some last →
      (applyUpdates row l).score = last.score ∧
      (applyUpdates row l).date_submitted = last.date_submitted := by
  intro l
  induction l with
  | nil => intro row last h; simp at h
  | cons r rs ih =>
    intro row last h
    cases rs with
    | nil =>
      simp at h
      rw [applyUpdates, applyUpdates, ← h]
      exact ⟨rfl, rfl⟩
    | cons r2 rs2 =>
      rw [List.getLast?_cons_cons] at h
      rw [applyUpdates]
      exact ih _ last h
/-- The existence-check-then-branch upsert preserves key uniqueness in
studentvle. -/
theorem uniqueVleKeys_applyVleRecord {table : List VleRow}
    (h : uniqueVleKeys table) (r : VleRow) :
    uniqueVleKeys (applyVleRecord table r) := by
  unfold uniqueVleKeys at h
  unfold uniqueVleKeys applyVleRecord
  by_cases hex : 0 < table.countP (fun row => row.key == r.key)
  · rw [if_pos hex, List.pairwise_map]
    have hfk : ∀ x : VleRow,
        (if x.key == r.key then { x with sum_click := x.sum_click + r.sum_click }
         else x).key = x.key := by
      intro x
      by_cases hx : (x.key == r.key) = true
      · rw [if_pos hx]
        rfl
      · rw [if_neg hx]
    refine h.imp ?_
    intro a b hab
    rw [hfk a, hfk b]
    exact hab
  · rw [if_neg hex]
    have hz : table.countP (fun row => row.key == r.key) = 0 :=
      Nat.eq_zero_of_not_pos hex
    rw [List.pairwise_append]
    refine ⟨h, List.pairwise_singleton _ _, ?_⟩
    intro a ha b hb
    simp at hb
    subst hb
    have := List.countP_eq_zero.mp hz a ha
    simpa using this

/-- The upsert preserves key uniqueness in studentassessment. -/
theorem uniqueAssessKeys_applyAssessRecord {table : List AssessRow}
    (h : uniqueAssessKeys table) (r : AssessRow) :
    uniqueAssessKeys (applyAssessRecord table r) := by
  unfold uniqueAssessKeys at h
  unfold uniqueAssessKeys applyAssessRecord
  by_cases hex : 0 < table.countP (fun row => row.key == r.key)
  · rw [if_pos hex, List.pairwise_map]
    have hfk : ∀ x : AssessRow,
        (if x.key == r.key then
           { x with score := r.score, date_submitted := r.date_submitted }
         else x).key = x.key := by
      intro x
      by_cases hx : (x.key == r.key) = true
      · rw [if_pos hx]
        rfl
      · rw [if_neg hx]
    refine h.imp ?_
    intro a b hab
    rw [hfk a, hfk b]
    exact hab
  · rw [if_neg hex]
    have hz : table.countP (fun row => row.key == r.key) = 0 :=
      Nat.eq_zero_of_not_pos hex
    rw [List.pairwise_append]
    refine ⟨h, List.pairwise_singleton _ _, ?_⟩
    intro a ha b hb
    simp at hb
    subst hb
    have := List.countP_eq_zero.mp hz a ha
    simpa using this

theorem runVleBatch_nil (vk : ValidKeys) (fault : Option Nat) (i : Nat)
    (table : List VleRow) (acc : Nat) :
    runVleBatch vk fault [] i table acc = some (table, acc) := rfl

theorem runVleBatch_cons (vk : ValidKeys) (fault : Option Nat) (d : VleDraw)
    (ds : List VleDraw) (i : Nat) (table : List VleRow) (acc : Nat) :
    runVleBatch vk fault (d :: ds) i table acc =
      match sampleVle vk d with
      | none => none
      | some r =>
        if fault = some i then none
        else runVleBatch vk fault ds (i + 1) (applyVleRecord table r) (acc + 1) := rfl

theorem runAssessBatch_nil (vk : ValidKeys) (fault : Option Nat) (i : Nat)
    (table : List AssessRow) (ins upd : Nat) :
    runAssessBatch vk fault [] i table ins upd = some (table, ins + upd) := rfl

theorem runAssessBatch_cons (vk : ValidKeys) (fault : Option Nat) (d : AssessDraw)
    (ds : List AssessDraw) (i : Nat) (table : List AssessRow) (ins upd : Nat) :
    runAssessBatch vk fault (d :: ds) i table ins upd =
      match sampleAssessment vk d with
      | none => none
      | some r =>
        if fault = some i then none
        else if 0 < table.countP (fun row => row.key == r.key) then
          runAssessBatch vk fault ds (i + 1) (applyAssessRecord table r) ins (upd + 1)
        else
          runAssessBatch vk fault ds (i + 1) (applyAssessRecord table r) (ins + 1) upd := rfl

/-- A fault-free batch whose sampling succeeds commits the fold of its
records over the table and counts every record. -/
theorem runVleBatch_eq_fold {vk : ValidKeys} :
    ∀ (draws : List VleDraw) (recs : List VleRow),
      sampleAllVle vk draws = some recs →
      ∀ (i : Nat) (table : List VleRow) (acc : Nat),
        runVleBatch vk none draws i table acc =
          some (recs.foldl applyVleRecord table, acc + recs.length) := by
  intro draws
  induction draws with
  | nil =>
    intro recs h i table acc
    simp [sampleAllVle] at h
    subst h
    simp [runVleBatch_nil]
  | cons d ds ih =>
    intro recs h i table acc
    rw [sampleAllVle] at h
    cases hs : sampleVle vk d with
    | none =>
      rw [hs] at h
      simp at h
    | some r =>
      rw [hs] at h
      cases hrest : sampleAllVle vk ds with
      | none =>
        rw [hrest] at h
        simp at h
      | some rs =>
        rw [hrest] at h
        simp at h
        subst h
        have hstep := ih rs hrest (i + 1) (applyVleRecord table r) (acc + 1)
        rw [runVleBatch_cons]
        simp [hs, hstep]
        omega

/-- A fault-free assessment batch whose sampling succeeds commits the
fold of its records over the table. -/
theorem runAssessBatch_eq_fold {vk : ValidKeys} :
    ∀ (draws : List AssessDraw) (recs : List AssessRow),
      sampleAllAssess vk draws = some recs →
      ∀ (i : Nat) (table : List AssessRow) (ins upd : Nat),
        ∃ n, runAssessBatch vk none draws i table ins upd =
          some (recs.foldl applyAssessRecord table, n) := by
  intro draws
  induction draws with
  | nil =>
    intro recs h i table ins upd
    simp [sampleAllAssess] at h
    subst h
    exact ⟨ins + upd, rfl⟩
  | cons d ds ih =>
    intro recs h i table ins upd
    rw [sampleAllAssess] at h
    cases hs : sampleAssessment vk d with
    | none =>
      rw [hs] at h
      simp at h
    | some r =>
      rw [hs] at h
      cases hrest : sampleAllAssess vk ds with
      | none =>
        rw [hrest] at h
        simp at h
      | some rs =>
        rw [hrest] at h
        simp at h
        subst h
        rw [runAssessBatch_cons]
        by_cases hex : 0 < table.countP (fun row => row.key == r.key)
        · obtain ⟨n, hn⟩ := ih rs hrest (i + 1) (applyAssessRecord table r) ins (upd + 1)
          refine ⟨n, ?_⟩
          simp [hs, hex, hn]
        · obtain ⟨n, hn⟩ := ih rs hrest (i + 1) (applyAssessRecord table r) (ins + 1) upd
          refine ⟨n, ?_⟩
          simp [hs, hex, hn]

/-- A failed batch is rolled back: the committed table is the original
one and zero rows are reported (lines 143-146). -/
theorem insert_studentvle_data_rollback {vk : ValidKeys} {fault : Option Nat}
    {draws : List VleDraw} {table : List VleRow}
    (h : runVleBatch vk fault draws 0 table 0 = none) :
    insert_studentvle_data vk fault draws table = (table, 0) := by
  unfold insert_studentvle_data
  rw [h]

theorem insert_studentvle_data_commit {vk : ValidKeys} {fault : Option Nat}
    {draws : List VleDraw} {table t : List VleRow} {n : Nat}
    (h : runVleBatch vk fault draws 0 table 0 = some (t, n)) :
    insert_studentvle_data vk fault draws table = (t, n) := by
  unfold insert_studentvle_data
  rw [h]

theorem insert_studentassessment_data_rollback {vk : ValidKeys} {fault : Option Nat}
    {draws : List AssessDraw} {table : List AssessRow}
    (h : runAssessBatch vk fault draws 0 table 0 0 = none) :
    insert_studentassessment_data vk fault draws table = (table, 0) := by
  unfold insert_studentassessment_data
  rw [h]

theorem insert_studentassessment_data_commit {vk : ValidKeys} {fault : Option Nat}
    {draws : List AssessDraw} {table t : List AssessRow} {n : Nat}
    (h : runAssessBatch vk fault draws 0 table 0 0 = some (t, n)) :
    insert_studentassessment_data vk fault draws table = (t, n) := by
  unfold insert_studentassessment_data
  rw [h]

/-- One upsert step only writes rows whose foreign keys are the sampled
ones: any row of the new table is an untouched old row or carries
snapshot foreign keys. -/
theorem applyVleRecord_mem {vk : ValidKeys} {table : List VleRow} {r : VleRow}
    (hr : vleFKsValid vk r) {row : VleRow} (hrow : row ∈ applyVleRecord table r) :
    row ∈ table ∨ vleFKsValid vk row := by
  unfold applyVleRecord at hrow
  by_cases hex : 0 < table.countP (fun x => x.key == r.key)
  · rw [if_pos hex] at hrow
    obtain ⟨x, hx, he⟩ := List.mem_map.mp hrow
    by_cases hxk : (x.key == r.key) = true
    · right
      rw [if_pos hxk] at he
      have hk : x.key = r.key := by simpa using hxk
      simp only [VleRow.key, VleKey.mk.injEq] at hk
      obtain ⟨e1, e2, e3, e4, _⟩ := hk
      subst he
      obtain ⟨m1, m2, m3⟩ := hr
      exact ⟨by simpa [e1] , by simp [e3, e4]; exact m2, by simpa [e2]⟩
    · left
      rw [if_neg hxk] at he
      subst he
      exact hx
  · rw [if_neg hex] at hrow
    rcases List.mem_append.mp hrow with h1 | h2
    · exact Or.inl h1
    · right
      simp at h2
      subst h2
      exact hr

theorem applyAssessRecord_mem {vk : ValidKeys} {table : List AssessRow} {r : AssessRow}
    (hr : assessFKsValid vk r) {row : AssessRow}
    (hrow : row ∈ applyAssessRecord table r) :
    row ∈ table ∨ assessFKsValid vk row := by
  unfold applyAssessRecord at hrow
  by_cases hex : 0 < table.countP (fun x => x.key == r.key)
  · rw [if_pos hex] at hrow
    obtain ⟨x, hx, he⟩ := List.mem_map.mp hrow
    by_cases hxk : (x.key == r.key) = true
    · right
      rw [if_pos hxk] at he
      have hk : x.key = r.key := by simpa using hxk
      simp only [AssessRow.key, AssessKey.mk.injEq] at hk
      obtain ⟨e1, e2⟩ := hk
      subst he
      obtain ⟨m1, m2⟩ := hr
      exact ⟨by simpa [e1], by simpa [e2]⟩
    · left
      rw [if_neg hxk] at he
      subst he
      exact hx
  · rw [if_neg hex] at hrow
    rcases List.mem_append.mp hrow with h1 | h2
    · exact Or.inl h1
    · right
      simp at h2
      subst h2
      exact hr

/-- Across a whole committed activity batch, any row of the committed
table is an untouched pre-batch row or carries snapshot foreign keys. -/
theorem runVleBatch_mem {vk : ValidKeys} {fault : Option Nat} :
    ∀ (draws : List VleDraw) (i : Nat) (table : List VleRow) (acc : Nat)
      (t : List VleRow) (n : Nat),
      runVleBatch vk fault draws i table acc = some (t, n) →
      ∀ row ∈ t, row ∈ table ∨ vleFKsValid vk row := by
  intro draws
  induction draws with
  | nil =>
    intro i table acc t n h row hrow
    rw [runVleBatch_nil] at h
    simp at h
    rw [← h.1] at hrow
    exact Or.inl hrow
  | cons d ds ih =>
    intro i table acc t n h row hrow
    rw [runVleBatch_cons] at h
    cases hs : sampleVle vk d with
    | none =>
      rw [hs] at h
      simp at h
    | some r =>
      rw [hs] at h
      simp only [] at h
      by_cases hfi : fault = some i
      · rw [if_pos hfi] at h
        simp at h
      · rw [if_neg hfi] at h
        rcases ih (i + 1) (applyVleRecord table r) (acc + 1) t n h row hrow with h1 | h2
        · exact applyVleRecord_mem (sampleVle_valid hs) h1
        · exact Or.inr h2

theorem runAssessBatch_mem {vk : ValidKeys} {fault : Option Nat} :
    ∀ (draws : List AssessDraw) (i : Nat) (table : List AssessRow) (ins upd : Nat)
      (t : List AssessRow) (n : Nat),
      runAssessBatch vk fault draws i table ins upd = some (t, n) →
      ∀ row ∈ t, row ∈ table ∨ assessFKsValid vk row := by
  intro draws
  induction draws with
  | nil =>
    intro i table ins upd t n h row hrow
    rw [runAssessBatch_nil] at h
    simp at h
    rw [← h.1] at hrow
    exact Or.inl hrow
  | cons d ds ih =>
    intro i table ins upd t n h row hrow
    rw [runAssessBatch_cons] at h
    cases hs : sampleAssessment vk d with
    | none =>
      rw [hs] at h
      simp at h
    | some r =>
      rw [hs] at h
      simp only [] at h
      by_cases hfi : fault = some i
      · rw [if_pos hfi] at h
        simp at h
      · rw [if_neg hfi] at h
        by_cases hex : 0 < table.countP (fun x => x.key == r.key)
        · rw [if_pos hex] at h
          rcases ih (i + 1) (applyAssessRecord table r) ins (upd + 1) t n h row hrow with h1 | h2
          · exact applyAssessRecord_mem (sampleAssessment_valid hs) h1
          · exact Or.inr h2
        · rw [if_neg hex] at h
          rcases ih (i + 1) (applyAssessRecord table r) (ins + 1) upd t n h row hrow with h1 | h2
          · exact applyAssessRecord_mem (sampleAssessment_valid hs) h1
          · exact Or.inr h2

/-- Key uniqueness is preserved across a whole committed activity
batch. -/
theorem runVleBatch_unique {vk : ValidKeys} {fault : Option Nat} :
    ∀ (draws : List VleDraw) (i : Nat) (table : List VleRow) (acc : Nat)
      (t : List VleRow) (n : Nat),
      uniqueVleKeys table → runVleBatch vk fault draws i table acc = some (t, n) →
      uniqueVleKeys t := by
  intro draws
  induction draws with
  | nil =>
    intro i table acc t n hu h
    rw [runVleBatch_nil] at h
    simp at h
    rw [← h.1]
    exact hu
  | cons d ds ih =>
    intro i table acc t n hu h
    rw [runVleBatch_cons] at h
    cases hs : sampleVle vk d with
    | none =>
      rw [hs] at h
      simp at h
    | some r =>
      rw [hs] at h
      simp only [] at h
      by_cases hfi : fault = some i
      · rw [if_pos hfi] at h
        simp at h
      · rw [if_neg hfi] at h
        exact ih (i + 1) _ (acc + 1) t n (uniqueVleKeys_applyVleRecord hu r) h

theorem runAssessBatch_unique {vk : ValidKeys} {fault : Option Nat} :
    ∀ (draws : List AssessDraw) (i : Nat) (table : List AssessRow) (ins upd : Nat)
      (t : List AssessRow) (n : Nat),
      uniqueAssessKeys table →
      runAssessBatch vk fault draws i table ins upd = some (t, n) →
      uniqueAssessKeys t := by
  intro draws
  induction draws with
  | nil =>
    intro i table ins upd t n hu h
    rw [runAssessBatch_nil] at h
    simp at h
    rw [← h.1]
    exact hu
  | cons d ds ih =>
    intro i table ins upd t n hu h
    rw [runAssessBatch_cons] at h
    cases hs : sampleAssessment vk d with
    | none =>
      rw [hs] at h
      simp at h
    | some r =>
      rw [hs] at h
      simp only [] at h
      by_cases hfi : fault = some i
      · rw [if_pos hfi] at h
        simp at h
      · rw [if_neg hfi] at h
        by_cases hex : 0 < table.countP (fun x => x.key == r.key)
        · rw [if_pos hex] at h
          exact ih (i + 1) _ ins (upd + 1) t n (uniqueAssessKeys_applyAssessRecord hu r) h
        · rw [if_neg hex] at h
          exact ih (i + 1) _ (ins + 1) upd t n (uniqueAssessKeys_applyAssessRecord hu r) h

/-- The running totals printed by main are exactly the accumulated sums
of the per-batch results, and the iteration counter counts the
iterations run. -/
theorem runLoop_totals (vk : ValidKeys) :
    ∀ (inps : List IterInput) (st : LoopState),
      (runLoop vk st inps).iteration = st.iteration + inps.length ∧
      (runLoop vk st inps).total_vle_records =
        st.total_vle_records + ((loopResults vk st inps).map Prod.fst).sum ∧
      (runLoop vk st inps).total_assessment_records =
        st.total_assessment_records + ((loopResults vk st inps).map Prod.snd).sum := by
  intro inps
  induction inps with
  | nil =>
    intro st
    simp [runLoop, loopResults]
  | cons iv rest ih =>
    intro st
    obtain ⟨h1, h2, h3⟩ := ih (runIteration vk st iv)
    refine ⟨?_, ?_, ?_⟩
    · rw [runLoop, h1]
      simp [runIteration]
      omega
    · rw [runLoop, h2]
      simp [loopResults, runIteration]
      omega
    · rw [runLoop, h3]
      simp [loopResults, runIteration]
      omega

/-- With an empty student snapshot the activity batch always reports
zero and leaves the table untouched: an empty batch commits nothing and
a non-empty one raises at its first sample and is rolled back. -/
theorem insert_vle_no_students {vk : ValidKeys} (hs : vk.students = [])
    (fault : Option Nat) (draws : List VleDraw) (table : List VleRow) :
    insert_studentvle_data vk fault draws table = (table, 0) := by
  cases draws with
  | nil => rfl
  | cons d ds =>
    apply insert_studentvle_data_rollback
    rw [runVleBatch_cons, sampleVle_none_of_no_students hs d]

theorem insert_assess_no_students {vk : ValidKeys} (hs : vk.students = [])
    (fault : Option Nat) (draws : List AssessDraw) (table : List AssessRow) :
    insert_studentassessment_data vk fault draws table = (table, 0) := by
  cases draws with
  | nil => rfl
  | cons d ds =>
    apply insert_studentassessment_data_rollback
    rw [runAssessBatch_cons, sampleAssessment_none_of_no_students hs d]

/-- With an empty student snapshot an iteration changes nothing but the
iteration counter. -/
theorem runIteration_no_students {vk : ValidKeys} (hs : vk.students = [])
    (st : LoopState) (iv : IterInput) :
    runIteration vk st iv = { st with iteration := st.iteration + 1 } := by
  unfold runIteration
  rw [insert_vle_no_students hs, insert_assess_no_students hs]
  simp

/-- With an empty student snapshot the loop spins forever committing
nothing. -/
theorem runLoop_no_students {vk : ValidKeys} (hs : vk.students = []) :
    ∀ (inps : List IterInput) (st : LoopState),
      runLoop vk st inps = { st with iteration := st.iteration + inps.length } := by
  intro inps
  induction inps with
  | nil => intro st; simp [runLoop]
  | cons iv rest ih =>
    intro st
    rw [runLoop, runIteration_no_students hs, ih]
    simp
    omega

/-- fetch_valid_foreign_keys fails exactly when the connection fails or
one of the four queries raises. -/
theorem fetch_none_iff (o : FetchOutcome) :
    fetch_valid_foreign_keys o = none ↔
      (o.connOk = false ∨ o.studentsQ = none ∨ o.modulesQ = none ∨
       o.sitesQ = none ∨ o.assessmentsQ = none) := by
  unfold fetch_valid_foreign_keys
  obtain ⟨c, sq, mq, siq, aq⟩ := o
  cases c <;> cases sq <;> cases mq <;> cases siq <;> cases aq <;> simp

/-- A committed assessment batch never touches the is_banked flag of a
row whose key was already present. -/
theorem runAssessBatch_banked {vk : ValidKeys} {fault : Option Nat} {k : AssessKey} :
    ∀ (draws : List AssessDraw) (i : Nat) (table : List AssessRow) (ins upd : Nat)
      (t : List AssessRow) (n : Nat) {row : AssessRow},
      table.find? (fun x => x.key == k) = some row →
      runAssessBatch vk fault draws i table ins upd = some (t, n) →
      ∃ row2, t.find? (fun x => x.key == k) = some row2 ∧
        row2.is_banked = row.is_banked := by
  intro draws
  induction draws with
  | nil =>
    intro i table ins upd t n row hfind h
    rw [runAssessBatch_nil] at h
    simp at h
    rw [← h.1]
    exact ⟨row, hfind, rfl⟩
  | cons d ds ih =>
    intro i table ins upd t n row hfind h
    rw [runAssessBatch_cons] at h
    cases hs : sampleAssessment vk d with
    | none =>
      rw [hs] at h
      simp at h
    | some r =>
      rw [hs] at h
      simp only [] at h
      by_cases hfi : fault = some i
      · rw [if_pos hfi] at h
        simp at h
      · rw [if_neg hfi] at h
        have hstep := find?_applyAssessRecord hfind r
        have hbk : (if r.key = k then
              { row with score := r.score, date_submitted := r.date_submitted }
            else row).is_banked = row.is_banked := by
          by_cases hrk : r.key = k
          · rw [if_pos hrk]
          · rw [if_neg hrk]
        by_cases hex : 0 < table.countP (fun x => x.key == r.key)
        · rw [if_pos hex] at h
          obtain ⟨row2, hf2, hb2⟩ := ih (i + 1) _ ins (upd + 1) t n hstep h
          exact ⟨row2, hf2, hb2.trans hbk⟩
        · rw [if_neg hex] at h
          obtain ⟨row2, hf2, hb2⟩ := ih (i + 1) _ (ins + 1) upd t n hstep h
          exact ⟨row2, hf2, hb2.trans hbk⟩

/-- C1: every row generated by the generator — as an activity row or an
assessment submission row of a committed batch — draws each of its
foreign keys (student id, (module code, presentation code) pair, site
id, assessment id) from the snapshot fetched at process start: any row
of a table after a batch is an untouched pre-existing row or carries
only snapshot foreign keys, so the generator never writes an id absent
from the snapshot. -/
theorem claim_C1_foreign_keys_from_snapshot (vk : ValidKeys)
    (vfault afault : Option Nat) (vdraws : List VleDraw) (adraws : List AssessDraw)
    (vtable : List VleRow) (atable : List AssessRow) :
    (∀ row ∈ (insert_studentvle_data vk vfault vdraws vtable).1,
        row ∈ vtable ∨ vleFKsValid vk row) ∧
    (∀ row ∈ (insert_studentassessment_data vk afault adraws atable).1,
        row ∈ atable ∨ assessFKsValid vk row) := by
  constructor
  · intro row hrow
    unfold insert_studentvle_data at hrow
    cases hb : runVleBatch vk vfault vdraws 0 vtable 0 with
    | none =>
      rw [hb] at hrow
      exact Or.inl hrow
    | some res =>
      rw [hb] at hrow
      exact runVleBatch_mem vdraws 0 vtable 0 res.1 res.2 (by rw [hb]) row hrow
  · intro row hrow
    unfold insert_studentassessment_data at hrow
    cases hb : runAssessBatch vk afault adraws 0 atable 0 0 with
    | none =>
      rw [hb] at hrow
      exact Or.inl hrow
    | some res =>
      rw [hb] at hrow
      exact runAssessBatch_mem adraws 0 atable 0 0 res.1 res.2 (by rw [hb]) row hrow

theorem claim_C1_witness :
    (⟨"AAA", "2013J", 501, 11, 5, 10⟩ : VleRow) ∈
      (insert_studentvle_data vkDemo none [⟨0, 0, 0, 5, 9⟩] []).1 ∧
    vleFKsValid vkDemo ⟨"AAA", "2013J", 501, 11, 5, 10⟩ := by
  refine ⟨by decide, ?_⟩
  rcases (claim_C1_foreign_keys_from_snapshot vkDemo none none
      [⟨0, 0, 0, 5, 9⟩] [] [] []).1 ⟨"AAA", "2013J", 501, 11, 5, 10⟩ (by decide)
    with h | h
  · exact absurd h (by decide)
  · exact h

/-- C2: activity and submission tables stay uniquely keyed by their
composite keys under every generation pass: with unique keys before a
batch, the table committed by the batch (or kept by its rollback) has
unique keys, because a sampled key that already has a row is updated in
place and never inserted a second time. -/
theorem claim_C2_unique_keys (vk : ValidKeys) (vfault afault : Option Nat)
    (vdraws : List VleDraw) (adraws : List AssessDraw)
    (vtable : List VleRow) (atable : List AssessRow)
    (hv : uniqueVleKeys vtable) (ha : uniqueAssessKeys atable) :
    uniqueVleKeys (insert_studentvle_data vk vfault vdraws vtable).1 ∧
    uniqueAssessKeys (insert_studentassessment_data vk afault adraws atable).1 := by
  constructor
  · unfold insert_studentvle_data
    cases hb : runVleBatch vk vfault vdraws 0 vtable 0 with
    | none => exact hv
    | some res =>
      exact runVleBatch_unique vdraws 0 vtable 0 res.1 res.2 hv (by rw [hb])
  · unfold insert_studentassessment_data
    cases hb : runAssessBatch vk afault adraws 0 atable 0 0 with
    | none => exact ha
    | some res =>
      exact runAssessBatch_unique adraws 0 atable 0 0 res.1 res.2 ha (by rw [hb])

theorem claim_C2_witness :
    uniqueVleKeys [(⟨"AAA", "2013J", 501, 11, 5, 10⟩ : VleRow)] ∧
    uniqueVleKeys
      (insert_studentvle_data vkDemo none [⟨0, 0, 0, 5, 9⟩]
        [⟨"AAA", "2013J", 501, 11, 5, 10⟩]).1 :=
  ⟨by decide,
   (claim_C2_unique_keys vkDemo none none [⟨0, 0, 0, 5, 9⟩] []
     [⟨"AAA", "2013J", 501, 11, 5, 10⟩] [] (by decide) (by decide)).1⟩

/-- C3: for every (student, site, module, presentation, day) key with
an activity row before a committed activity batch, after the batch the
row's click count equals its pre-batch value plus exactly the total of
the click increments sampled for that key in the batch — added, never
overwritten, with no double counting and no loss. -/
theorem claim_C3_click_accumulation (vk : ValidKeys) (draws : List VleDraw)
    (recs : List VleRow) (table : List VleRow) (k : VleKey) (c : Nat)
    (h1 : sampleAllVle vk draws = some recs)
    (h2 : getClicks table k = some c) :
    getClicks (insert_studentvle_data vk none draws table).1 k =
      some (c + totalIncr k recs) := by
  unfold getClicks at h2 ⊢
  obtain ⟨row, hfind, hc⟩ := Option.map_eq_some'.mp h2
  rw [insert_studentvle_data_commit (runVleBatch_eq_fold draws recs h1 0 table 0)]
  rw [find?_foldl_applyVleRecord recs hfind]
  simp [hc]

theorem claim_C3_witness :
    sampleAllVle vkDemo [⟨0, 0, 0, 5, 9⟩] = some [⟨"AAA", "2013J", 501, 11, 5, 10⟩] ∧
    getClicks [(⟨"AAA", "2013J", 501, 11, 5, 10⟩ : VleRow)]
      ⟨11, 501, "AAA", "2013J", 5⟩ = some 10 ∧
    getClicks
      (insert_studentvle_data vkDemo none [⟨0, 0, 0, 5, 9⟩]
        [⟨"AAA", "2013J", 501, 11, 5, 10⟩]).1 ⟨11, 501, "AAA", "2013J", 5⟩ =
      some (10 + totalIncr ⟨11, 501, "AAA", "2013J", 5⟩
        [⟨"AAA", "2013J", 501, 11, 5, 10⟩]) :=
  ⟨by decide, by decide,
   claim_C3_click_accumulation vkDemo [⟨0, 0, 0, 5, 9⟩]
     [⟨"AAA", "2013J", 501, 11, 5, 10⟩] [⟨"AAA", "2013J", 501, 11, 5, 10⟩]
     ⟨11, 501, "AAA", "2013J", 5⟩ 10 (by decide) (by decide)⟩

/-- C4: for every (student, assessment) key with a submission row
before a committed assessment batch, after the batch the row's score
and submission day equal the most recently sampled values for that key
within the batch — a pure last-write-wins overwrite, never an
accumulation or average. -/
theorem claim_C4_last_write_wins (vk : ValidKeys) (draws : List AssessDraw)
    (recs : List AssessRow) (table : List AssessRow) (k : AssessKey)
    (v : Nat × Nat) (last : AssessRow)
    (h1 : sampleAllAssess vk draws = some recs)
    (h2 : getScoreDate table k = some v)
    (h3 : (recs.filter (fun r => r.key == k)).getLast? = some last) :
    getScoreDate (insert_studentassessment_data vk none draws table).1 k =
      some (last.score, last.date_submitted) := by
  unfold getScoreDate at h2 ⊢
  obtain ⟨row, hfind, _⟩ := Option.map_eq_some'.mp h2
  obtain ⟨n, hn⟩ := runAssessBatch_eq_fold draws recs h1 0 table 0 0
  rw [insert_studentassessment_data_commit hn]
  rw [find?_foldl_applyAssessRecord recs hfind]
  obtain ⟨hsc, hdt⟩ := applyUpdates_getLast _ row last h3
  simp [hsc, hdt]

theorem claim_C4_witness :
    sampleAllAssess vkDemo [⟨0, 0, 0, 0, 250⟩, ⟨0, 0, 5, 0, 400⟩] =
      some [⟨11, 1, 10, 0, 550⟩, ⟨11, 1, 15, 0, 700⟩] ∧
    getScoreDate [(⟨11, 1, 20, 1, 330⟩ : AssessRow)] ⟨11, 1⟩ = some (330, 20) ∧
    ([(⟨11, 1, 10, 0, 550⟩ : AssessRow), ⟨11, 1, 15, 0, 700⟩].filter
        (fun r => r.key == (⟨11, 1⟩ : AssessKey))).getLast? =
      some ⟨11, 1, 15, 0, 700⟩ ∧
    getScoreDate
      (insert_studentassessment_data vkDemo none
        [⟨0, 0, 0, 0, 250⟩, ⟨0, 0, 5, 0, 400⟩] [⟨11, 1, 20, 1, 330⟩]).1 ⟨11, 1⟩ =
      some (700, 15) :=
  ⟨by decide, by decide, by decide,
   claim_C4_last_write_wins vkDemo [⟨0, 0, 0, 0, 250⟩, ⟨0, 0, 5, 0, 400⟩]
     [⟨11, 1, 10, 0, 550⟩, ⟨11, 1, 15, 0, 700⟩] [⟨11, 1, 20, 1, 330⟩] ⟨11, 1⟩
     (330, 20) ⟨11, 1, 15, 0, 700⟩ (by decide) (by decide) (by decide)⟩

/-- C5: when any error occurs during an activity or assessment batch,
the whole batch transaction is rolled back — the committed table is the
pre-batch one — zero progress is reported for that batch, and the loop
simply continues with the next iteration; no partial commit, no retry
within the iteration. -/
theorem claim_C5_batch_rollback (vk : ValidKeys) (st : LoopState)
    (iv : IterInput) (rest : List IterInput) :
    (runVleBatch vk iv.vleFault iv.vleDraws 0 st.studentvle 0 = none →
      insert_studentvle_data vk iv.vleFault iv.vleDraws st.studentvle =
        (st.studentvle, 0) ∧
      (runIteration vk st iv).studentvle = st.studentvle ∧
      (runIteration vk st iv).total_vle_records = st.total_vle_records) ∧
    (runAssessBatch vk iv.assessFault iv.assessDraws 0 st.studentassessment 0 0 =
        none →
      insert_studentassessment_data vk iv.assessFault iv.assessDraws
          st.studentassessment = (st.studentassessment, 0) ∧
      (runIteration vk st iv).studentassessment = st.studentassessment ∧
      (runIteration vk st iv).total_assessment_records =
        st.total_assessment_records) ∧
    runLoop vk st (iv :: rest) = runLoop vk (runIteration vk st iv) rest := by
  refine ⟨?_, ?_, rfl⟩
  · intro h
    have hr := insert_studentvle_data_rollback h
    exact ⟨hr, by simp [runIteration, hr], by simp [runIteration, hr]⟩
  · intro h
    have hr := insert_studentassessment_data_rollback h
    exact ⟨hr, by simp [runIteration, hr], by simp [runIteration, hr]⟩

theorem claim_C5_witness :
    runVleBatch vkEmpty none [⟨0, 0, 0, 0, 0⟩] 0 [] 0 = none ∧
    insert_studentvle_data vkEmpty none [⟨0, 0, 0, 0, 0⟩] [] = ([], 0) :=
  ⟨by decide,
   ((claim_C5_batch_rollback vkEmpty (initState [] [])
       ⟨none, [⟨0, 0, 0, 0, 0⟩], none, []⟩ []).1 (by decide)).1⟩

/-- C6: when the interrupt arrives at the iteration boundary after the
listed iterations, the final state reports an iteration count equal to
the number of iterations run and cumulative totals equal to the sums of
the per-batch results of all batches run across every iteration. -/
theorem claim_C6_final_totals (vk : ValidKeys) (t1 : List VleRow)
    (t2 : List AssessRow) (inps : List IterInput) :
    (runLoop vk (initState t1 t2) inps).iteration = inps.length ∧
    (runLoop vk (initState t1 t2) inps).total_vle_records =
      ((loopResults vk (initState t1 t2) inps).map Prod.fst).sum ∧
    (runLoop vk (initState t1 t2) inps).total_assessment_records =
      ((loopResults vk (initState t1 t2) inps).map Prod.snd).sum := by
  obtain ⟨h1, h2, h3⟩ := runLoop_totals vk inps (initState t1 t2)
  refine ⟨?_, ?_, ?_⟩
  · rw [h1]
    simp [initState]
  · rw [h2]
    simp [initState]
  · rw [h3]
    simp [initState]

/-- C7: if the startup connection or any of the four snapshot fetch
steps fails, fetch_valid_foreign_keys returns none and main aborts
before the loop: no partial snapshot, no batch ever attempted. -/
theorem claim_C7_startup_abort (o : FetchOutcome) (t1 : List VleRow)
    (t2 : List AssessRow) (inps : List IterInput)
    (h : o.connOk = false ∨ o.studentsQ = none ∨ o.modulesQ = none ∨
         o.sitesQ = none ∨ o.assessmentsQ = none) :
    fetch_valid_foreign_keys o = none ∧ mainRun o t1 t2 inps = none := by
  have hf := (fetch_none_iff o).mpr h
  refine ⟨hf, ?_⟩
  unfold mainRun
  rw [hf]

theorem claim_C7_witness :
    fetch_valid_foreign_keys ⟨false, some [11], some [], some [], some []⟩ = none ∧
    mainRun ⟨false, some [11], some [], some [], some []⟩ [] [] [] = none :=
  claim_C7_startup_abort ⟨false, some [11], some [], some [], some []⟩ [] [] []
    (Or.inl rfl)

/-- C8: every generated activity record has its day offset in 0..100
(a Nat, hence at least 0) and its click increment in 1..50; every
generated submission record has its day offset in 10..100, its score a
whole number of tenths between 30.0 and 95.0 (300..950 tenths — being
an integer count of tenths is the rounding to one decimal), and its
banked flag drawn from the literal pool [0, 0, 0, 1]: three not-banked
values and one banked value, 3-to-1 odds against banked. -/
theorem claim_C8_sampling_ranges (vk : ValidKeys) (d : VleDraw)
    (a : AssessDraw) (r : VleRow) (s : AssessRow) :
    (sampleVle vk d = some r →
      r.date ≤ 100 ∧ 1 ≤ r.sum_click ∧ r.sum_click ≤ 50) ∧
    (sampleAssessment vk a = some s →
      10 ≤ s.date_submitted ∧ s.date_submitted ≤ 100 ∧
      300 ≤ s.score ∧ s.score ≤ 950 ∧ s.is_banked ∈ bankedChoices) ∧
    (bankedChoices.length = 4 ∧ bankedChoices.count 0 = 3 ∧
      bankedChoices.count 1 = 1) := by
  refine ⟨?_, ?_, by decide⟩
  · intro h
    obtain ⟨s1, m, site, _, _, _, rfl⟩ := sampleVle_eq_some h
    exact ⟨randint_le (by omega), le_randint 1 50 d.rClick, randint_le (by omega)⟩
  · intro h
    obtain ⟨s1, a1, b, _, _, hb, rfl⟩ := sampleAssessment_eq_some h
    exact ⟨le_randint 10 100 a.rDate, randint_le (by omega),
      le_randint 300 950 a.rScore, randint_le (by omega), choice_mem hb⟩

theorem claim_C8_witness :
    sampleVle vkDemo ⟨0, 0, 0, 5, 9⟩ = some ⟨"AAA", "2013J", 501, 11, 5, 10⟩ ∧
    sampleAssessment vkDemo ⟨0, 0, 0, 3, 0⟩ = some ⟨11, 1, 10, 1, 300⟩ ∧
    ((⟨"AAA", "2013J", 501, 11, 5, 10⟩ : VleRow).date ≤ 100 ∧
      1 ≤ (⟨"AAA", "2013J", 501, 11, 5, 10⟩ : VleRow).sum_click ∧
      (⟨"AAA", "2013J", 501, 11, 5, 10⟩ : VleRow).sum_click ≤ 50) ∧
    (10 ≤ (⟨11, 1, 10, 1, 300⟩ : AssessRow).date_submitted ∧
      (⟨11, 1, 10, 1, 300⟩ : AssessRow).date_submitted ≤ 100 ∧
      300 ≤ (⟨11, 1, 10, 1, 300⟩ : AssessRow).score ∧
      (⟨11, 1, 10, 1, 300⟩ : AssessRow).score ≤ 950 ∧
      (⟨11, 1, 10, 1, 300⟩ : AssessRow).is_banked ∈ bankedChoices) :=
  ⟨by decide, by decide,
   (claim_C8_sampling_ranges vkDemo ⟨0, 0, 0, 5, 9⟩ ⟨0, 0, 0, 3, 0⟩
     ⟨"AAA", "2013J", 501, 11, 5, 10⟩ ⟨11, 1, 10, 1, 300⟩).1 (by decide),
   ((claim_C8_sampling_ranges vkDemo ⟨0, 0, 0, 5, 9⟩ ⟨0, 0, 0, 3, 0⟩
     ⟨"AAA", "2013J", 501, 11, 5, 10⟩ ⟨11, 1, 10, 1, 300⟩).2).1 (by decide)⟩

/-- C9: when an assessment batch updates an existing (student,
assessment) submission row, only score and date_submitted change; the
is_banked flag keeps the value it was given when the row was first
inserted, across every update pass of the batch, whether the batch
commits or is rolled back. -/
theorem claim_C9_banked_untouched (vk : ValidKeys) (fault : Option Nat)
    (draws : List AssessDraw) (table : List AssessRow) (k : AssessKey) (b : Nat)
    (h : getBanked table k = some b) :
    getBanked (insert_studentassessment_data vk fault draws table).1 k = some b := by
  unfold getBanked at h ⊢
  obtain ⟨row, hfind, hb⟩ := Option.map_eq_some'.mp h
  unfold insert_studentassessment_data
  cases hr : runAssessBatch vk fault draws 0 table 0 0 with
  | none => simp [hfind, hb]
  | some res =>
    obtain ⟨row2, hf2, hb2⟩ :=
      runAssessBatch_banked draws 0 table 0 0 res.1 res.2 hfind (by rw [hr])
    simp [hf2, hb2, hb]

theorem claim_C9_witness :
    getBanked [(⟨11, 1, 20, 1, 330⟩ : AssessRow)] ⟨11, 1⟩ = some 1 ∧
    getBanked
      (insert_studentassessment_data vkDemo none [⟨0, 0, 0, 0, 250⟩]
        [⟨11, 1, 20, 1, 330⟩]).1 ⟨11, 1⟩ = some 1 :=
  ⟨by decide,
   claim_C9_banked_untouched vkDemo none [⟨0, 0, 0, 0, 250⟩]
     [⟨11, 1, 20, 1, 330⟩] ⟨11, 1⟩ 1 (by decide)⟩

/-- C10 (amended: the no-commit conclusion holds when the empty
category is the student list, the one both batch kinds sample; an empty
category sampled by only one batch kind leaves the other batch free to
commit): when the snapshot fetch succeeds with zero students, startup
is not a failure — main enters the loop — and every batch with at least
one record raises at its first sample, is caught at the batch boundary,
reports zero rows and rolls back, so the loop iterates for ever without
committing a row: after any number of iterations the tables are
untouched and the totals are zero. -/
theorem claim_C10_empty_snapshot (o : FetchOutcome) (vk : ValidKeys)
    (hf : fetch_valid_foreign_keys o = some vk) (hs : vk.students = [])
    (t1 : List VleRow) (t2 : List AssessRow) (inps : List IterInput) :
    mainRun o t1 t2 inps =
      some { studentvle := t1, studentassessment := t2,
             total_vle_records := 0, total_assessment_records := 0,
             iteration := inps.length } ∧
    (∀ (fault : Option Nat) (d : VleDraw) (ds : List VleDraw) (i : Nat)
        (table : List VleRow) (acc : Nat),
      runVleBatch vk fault (d :: ds) i table acc = none) ∧
    (∀ (fault : Option Nat) (d : AssessDraw) (ds : List AssessDraw) (i : Nat)
        (table : List AssessRow) (ins upd : Nat),
      runAssessBatch vk fault (d :: ds) i table ins upd = none) ∧
    (∀ (fault : Option Nat) (draws : List VleDraw) (table : List VleRow),
      insert_studentvle_data vk fault draws table = (table, 0)) ∧
    (∀ (fault : Option Nat) (draws : List AssessDraw) (table : List AssessRow),
      insert_studentassessment_data vk fault draws table = (table, 0)) := by
  refine ⟨?_, ?_, ?_, insert_vle_no_students hs, insert_assess_no_students hs⟩
  · unfold mainRun
    rw [hf]
    show some (runLoop vk (initState t1 t2) inps) = _
    rw [runLoop_no_students hs]
    simp [initState]
  · intro fault d ds i table acc
    rw [runVleBatch_cons, sampleVle_none_of_no_students hs d]
  · intro fault d ds i table ins upd
    rw [runAssessBatch_cons, sampleAssessment_none_of_no_students hs d]

theorem claim_C10_witness :
    fetch_valid_foreign_keys ⟨true, some [], some [], some [], some []⟩ =
      some vkEmpty ∧
    vkEmpty.students = [] ∧
    mainRun ⟨true, some [], some [], some [], some []⟩ [] []
        [⟨none, [⟨0, 0, 0, 0, 0⟩], none, [⟨0, 0, 0, 0, 0⟩]⟩] =
      some { studentvle := [], studentassessment := [],
             total_vle_records := 0, total_assessment_records := 0,
             iteration := 1 } :=
  ⟨by decide, rfl,
   (claim_C10_empty_snapshot ⟨true, some [], some [], some [], some []⟩ vkEmpty
     (by decide) rfl [] []
     [⟨none, [⟨0, 0, 0, 0, 0⟩], none, [⟨0, 0, 0, 0, 0⟩]⟩]).1⟩

/-- Counterexample to C10 as stated: with the snapshot category
assessments empty but students, modules and sites non-empty, startup
still enters the loop and the assessment batch raises and rolls back —
but the activity batch does not sample the empty list and commits a
row, so the process does not iterate "without ever committing a row". -/
theorem claim_C10_counterexample :
    fetch_valid_foreign_keys
        ⟨true, some [11], some [("AAA", "2013J")], some [501], some []⟩ =
      some ⟨[11], [("AAA", "2013J")], [501], []⟩ ∧
    mainRun ⟨true, some [11], some [("AAA", "2013J")], some [501], some []⟩ [] []
        [⟨none, [⟨0, 0, 0, 0, 0⟩], none, [⟨0, 0, 0, 0, 0⟩]⟩] =
      some { studentvle := [⟨"AAA", "2013J", 501, 11, 0, 1⟩],
             studentassessment := [],
             total_vle_records := 1, total_assessment_records := 0,
             iteration := 1 } ∧
    (runLoop ⟨[11], [("AAA", "2013J")], [501], []⟩ (initState [] [])
        [⟨none, [⟨0, 0, 0, 0, 0⟩], none, [⟨0, 0, 0, 0, 0⟩]⟩]).total_vle_records ≠ 0 := by
  refine ⟨by decide, by decide, by decide⟩
